import Mathlib

/-!
Verification development of the mommas-cookbook trading-bot core.

Shallow embedding of the retry policy (`mcookbook/utils/retry.py`), the
wildcard pairlist expansion (`mcookbook/utils/pairlist.py`), the pairlist
manager and handlers (`mcookbook/pairlist/*.py`), and the OHLCV refresh
path of the base exchange (`mcookbook/exchanges/abc.py`).

External capabilities (the ccxt connection, the `re` regex engine, pandas
dataframe transforms, the timeframe parsing table, wall-clock time) are
passed in as explicit function parameters, mirroring how the source treats
them as opaque collaborators.  Python lists and dicts that the source
mutates in place are threaded through as explicit state: functions that
mutate a caller-owned list return both the value the Python function
returns and the final state of the caller's object, so aliasing facts
("the returned object is the input object") become provable equalities.
-/

namespace MCookbook

/-! ## `mcookbook/utils/retry.py` -/

/-- `API_RETRY_COUNT = 4`: maximum default retry count; functions are
always called `API_RETRY_COUNT + 1` times counting the original call. -/
def API_RETRY_COUNT : Nat := 4

/-- `calculate_backoff(retrycount, max_retries) = (max_retries - retrycount) ** 2 + 1`
(Python ints: the subtraction is signed, so the result lives in `Int`). -/
def calculate_backoff (retrycount maxRetries : Nat) : Int :=
  ((maxRetries : Int) - (retrycount : Int)) ^ 2 + 1

/-- Outcome of one invocation of the wrapped async operation.
`tempError` models raising `TemporaryError`; `isDDos` marks the
`DDosProtection` subclass (the rate-limited case) and `has429` whether
`"429000"` occurs in the exception text (KuCoin's soft rate-limit code).
`fatalError` models any non-`TemporaryError` exception, which the wrapper
does not catch. -/
inductive CallOutcome (α : Type) where
  | success (v : α)
  | tempError (isDDos : Bool) (has429 : Bool)
  | fatalError
deriving DecidableEq

/-- `true` exactly when the outcome is a raised `TemporaryError`. -/
def CallOutcome.isTemp {α : Type} : CallOutcome α → Bool
  | .tempError _ _ => true
  | _ => false

/-- How a run of the retry wrapper ends: returning a value, re-raising the
final `TemporaryError` (carrying that error's identifying flags), or
propagating a non-temporary exception. -/
inductive RetryResult (α : Type) where
  | ok (v : α)
  | raisedTemp (isDDos : Bool) (has429 : Bool)
  | raisedFatal
deriving DecidableEq

/-- Observable trace of one run of the `async_retrier` wrapper: the final
result, the total number of invocations of the wrapped operation, and the
sequence of `asyncio.sleep` delays performed (in order). -/
structure RetryRun (α : Type) where
  result : RetryResult α
  invocations : Nat
  sleeps : List Int
deriving DecidableEq

/-- The recursive body of `async_retrier.wrapper`.  `f i` is the outcome of
the `i`-th invocation of the wrapped operation (0-based), `kucoin` is
`args[0].config.exchange.name == "Kucoin"`, `count` the remaining retry
budget and `inv` the number of invocations already performed.  On a
`TemporaryError` with `count > 0` the wrapper decrements the budget, and if
the error is `DDosProtection` either skips the delay (KuCoin `429000` soft
path) or sleeps `calculate_backoff(count + 1, API_RETRY_COUNT)` seconds
computed after the decrement, then recurses. -/
def retrierAux {α : Type} (f : Nat → CallOutcome α) (kucoin : Bool) :
    (count inv : Nat) → RetryRun α
  | count, inv =>
    match f inv with
    | .success v => ⟨.ok v, inv + 1, []⟩
    | .fatalError => ⟨.raisedFatal, inv + 1, []⟩
    | .tempError isDDos has429 =>
      match count with
      | 0 => ⟨.raisedTemp isDDos has429, inv + 1, []⟩
      | c + 1 =>
        let rest := retrierAux f kucoin c (inv + 1)
        ⟨rest.result, rest.invocations,
          (if isDDos && !(kucoin && has429)
            then [calculate_backoff (c + 1) API_RETRY_COUNT]
            else []) ++ rest.sleeps⟩

/-- `async_retrier`: run the wrapped operation with retry budget `count`
(defaulting to `API_RETRY_COUNT` as `kwargs.pop("count", API_RETRY_COUNT)`
does). -/
def async_retrier {α : Type} (f : Nat → CallOutcome α) (kucoin : Bool)
    (count : Nat := API_RETRY_COUNT) : RetryRun α :=
  retrierAux f kucoin count 0

/-! ## Python list primitives

`list.remove(x)` removes the first occurrence equal to `x`; a `for` loop
over a list keeps an internal index that advances once per iteration even
when the list shrinks underneath it.  Both are modelled explicitly because
several source functions mutate lists they are iterating over (or a copy
of). -/

/-- Python `list.remove(x)`: drop the first element equal to `x` (no-op on
a list not containing it; the source only removes elements it just found,
so the `ValueError` case never arises). -/
def removeFirst {α : Type} [DecidableEq α] (x : α) : List α → List α
  | [] => []
  | y :: ys => if y = x then ys else y :: removeFirst x ys

/-- `for p in copy: if reject p: cur.remove(p)` — iterate over a snapshot
`ps` of the list, removing each rejected element from the live list
`cur`.  This is the loop shape of both `PairListManager.verify_block_list`
and the generic `PairList.filter_pairlist`. -/
def removeIterLoop {α : Type} [DecidableEq α] (reject : α → Bool) :
    List α → List α → List α
  | [], cur => cur
  | p :: ps, cur =>
    removeIterLoop reject ps (if reject p then removeFirst p cur else cur)

/-- Result of a Python function that both returns a list and may have
mutated a caller-owned list argument in place: `ret` is the returned list,
`argAfter` the final state of the caller's list object. -/
structure ListMutRun where
  ret : List String
  argAfter : List String
deriving DecidableEq

/-! ## `mcookbook/utils/pairlist.py` — `expand_pairlist`

The `re` module is an external capability: it is passed in as
`compile : String → Option (String → Bool)`, returning `none` when the
pattern is invalid (`re.error`) and otherwise the case-insensitive
`fullmatch` predicate of the compiled pattern.  The fixed whitelist
pattern (one or more of `A-Z a-z 0-9 '/' '-'`, anchored) is concrete and
is embedded directly. -/

/-- One character of the conservative whitelist: `A-Z a-z 0-9 '/' '-'`. -/
def whitelistChar (c : Char) : Bool :=
  c.isAlpha || c.isDigit || c = '/' || c = '-'

/-- `re.fullmatch` of the whitelist pattern: non-empty and every character
in the whitelist. -/
def whitelistOk (s : String) : Bool :=
  !s.toList.isEmpty && s.toList.all whitelistChar

/-- The `keep_invalid` accumulation pass: for each pattern, all matching
available pairs, or the pattern itself verbatim when nothing matches; the
first invalid pattern aborts the call with `ValueError`. -/
def expandKeep (compile : String → Option (String → Bool))
    (available : List String) : List String → Except String (List String)
  | [] => .ok []
  | pwc :: rest =>
    match compile pwc with
    | none => .error ("Wildcard error in " ++ pwc)
    | some m =>
      match expandKeep compile available rest with
      | .error e => .error e
      | .ok tail =>
        let matched := available.filter m
        .ok ((if matched.isEmpty then [pwc] else matched) ++ tail)

/-- The default accumulation pass: all matching available pairs per
pattern, nothing for a pattern matching nothing, `ValueError` on the first
invalid pattern. -/
def expandNoKeep (compile : String → Option (String → Bool))
    (available : List String) : List String → Except String (List String)
  | [] => .ok []
  | pwc :: rest =>
    match compile pwc with
    | none => .error ("Wildcard error in " ++ pwc)
    | some m =>
      match expandNoKeep compile available rest with
      | .error e => .error e
      | .ok tail => .ok (available.filter m ++ tail)

/-- `for element in result: if not re.fullmatch(whitelist, element):
result.remove(element)` — Python's iterator keeps an integer index that
advances every iteration even after a removal shifts the remaining
elements left, and `remove` deletes the first occurrence equal to the
element.  Modelled exactly: `i` is the iterator's index into the live
list `l`. -/
def pruneLoop (l : List String) (i : Nat) : List String :=
  if h : i < l.length then
    let e := l.get ⟨i, h⟩
    if whitelistOk e then pruneLoop l (i + 1)
    else pruneLoop (removeFirst e l) (i + 1)
  else l
termination_by l.length - i
decreasing_by
  · omega
  · have hle : ∀ (x : String) (l' : List String),
        (removeFirst x l').length ≤ l'.length := by
      intro x l'
      induction l' with
      | nil => simp [removeFirst]
      | cons y ys ih =>
        by_cases hxy : y = x
        all_goals simp [removeFirst, hxy]
        all_goals omega
    have := hle (l.get ⟨i, h⟩) l
    omega

/-- `expand_pairlist(wildcardpl, available_pairs, keep_invalid)`. -/
def expand_pairlist (compile : String → Option (String → Bool))
    (wildcardpl available_pairs : List String) (keep_invalid : Bool := false) :
    Except String (List String) :=
  if keep_invalid then
    match expandKeep compile available_pairs wildcardpl with
    | .error e => .error e
    | .ok result => .ok (pruneLoop result 0)
  else
    expandNoKeep compile available_pairs wildcardpl

/-! ## `mcookbook/pairlist/manager.py` — `PairListManager` -/

/-- The manager state the block-list path reads: the configured block-list
patterns and the current exchange market keys
(`list(self.exchange.markets)`). -/
structure PairListManager where
  block_list : List String
  markets : List String
deriving DecidableEq

/-- `expanded_block_list` property: wildcard expansion of the block-list
against current market keys (`keep_invalid` defaulting to `false`). -/
def expanded_block_list (compile : String → Option (String → Bool))
    (m : PairListManager) : Except String (List String) :=
  expand_pairlist compile m.block_list m.markets

/-- `verify_block_list(pairlist)`: on a `ValueError` from expansion, log
and return a fresh empty list (the caller's list is untouched); otherwise
iterate over `pairlist.copy()` removing each block-listed pair from the
caller's list in place, and return that same list. -/
def verify_block_list (compile : String → Option (String → Bool))
    (m : PairListManager) (pairlist : List String) : ListMutRun :=
  match expanded_block_list compile m with
  | .error _ => ⟨[], pairlist⟩
  | .ok bl =>
    let final := removeIterLoop (fun p => decide (p ∈ bl)) pairlist pairlist
    ⟨final, final⟩

/-! ## `mcookbook/pairlist/abc.py` and `static.py` — handlers -/

/-- The generic `PairList.filter_pairlist`: when enabled, iterate over
`copy.deepcopy(pairlist)` and remove from the caller's list every pair the
handler's `_validate_pair` rejects, returning the caller's (mutated) list.
`validate` absorbs `_validate_pair` together with the ticker lookup
`tickers[p] if p in tickers else` the empty dict. -/
def base_filter_pairlist (validate : String → Bool) (enabled : Bool)
    (pairlist : List String) : ListMutRun :=
  if enabled then
    let final := removeIterLoop (fun p => !validate p) pairlist pairlist
    ⟨final, final⟩
  else ⟨pairlist, pairlist⟩

/-- The append loop of `StaticPairList.filter_pairlist`: for each
configured allow-list pair missing from the working list, append it. -/
def staticAppendLoop : List String → List String → List String
  | [], cur => cur
  | p :: ps, cur => staticAppendLoop ps (if p ∈ cur then cur else cur ++ [p])

/-- `StaticPairList.filter_pairlist`: deep-copy the incoming list, append
any configured allow-list pair missing from it, and return the copy; the
caller's list is never touched. -/
def static_filter_pairlist (pair_allow_list : List String)
    (pairlist : List String) : ListMutRun :=
  ⟨staticAppendLoop pair_allow_list pairlist, pairlist⟩

/-! ## `mcookbook/exchanges/abc.py` — OHLCV refresh

`tfSeconds` stands for `tf.to_seconds` (the fixed ccxt parsing table),
`normalize` for `ohlcv_to_dataframe(ticks, timeframe, pair, fill_missing,
drop_incomplete)` (the external pandas transform, producing an opaque
dataframe of type `DF`), and `fetch` for the awaited network result of
`get_historic_ohlcv` or `get_candle_history` (`Except` for an exception
raised inside the gathered coroutine). -/

/-- A raw OHLCV row `(timestamp_ms, open, high, low, close, volume)`;
`row[0]` is the millisecond timestamp. -/
structure Candle where
  ts : Nat
  o : Int
  hi : Int
  lo : Int
  c : Int
  v : Int
deriving DecidableEq

/-- Python dict assignment `d[k] = v` on an insertion-ordered association
list: replace in place if the key exists, else append. -/
def assocSet {κ ν : Type} [DecidableEq κ] (k : κ) (v : ν) :
    List (κ × ν) → List (κ × ν)
  | [] => [(k, v)]
  | (k', v') :: rest =>
    if k' = k then (k, v) :: rest else (k', v') :: assocSet k v rest

/-- Python dict lookup `d.get(k)` on an association list. -/
def assocGet {κ ν : Type} [DecidableEq κ] (k : κ) :
    List (κ × ν) → Option ν
  | [] => none
  | (k', v') :: rest => if k' = k then some v' else assocGet k rest

/-- The `Exchange` caches touched by `refresh_latest_ohlcv`:
`_klines` (per `(pair, timeframe)` normalized dataframe) and
`_pairs_last_refresh_time` (per `(pair, timeframe)` last-candle time in
seconds). -/
structure ExchangeState (DF : Type) where
  klines : List ((String × String) × DF)
  pairsLastRefreshTime : List ((String × String) × Nat)

/-- `_now_is_time_to_refresh(pair, timeframe)`:
`last_refresh_time.get(key, 0) + to_seconds(timeframe) < utcnow()`. -/
def now_is_time_to_refresh {DF : Type} (tfSeconds : String → Nat)
    (st : ExchangeState DF) (pair timeframe : String) (now : Nat) : Bool :=
  decide ((assocGet (pair, timeframe) st.pairsLastRefreshTime).getD 0
    + tfSeconds timeframe < now)

/-- The per-key fetch decision inside `refresh_latest_ohlcv`: fetch when
the key is `not in self._klines`, `or not cache`, `or
self._now_is_time_to_refresh(pair, timeframe)`. -/
def refreshNeedsFetch {DF : Type} (tfSeconds : String → Nat)
    (st : ExchangeState DF) (pair timeframe : String) (cache : Bool)
    (now : Nat) : Bool :=
  (assocGet (pair, timeframe) st.klines).isNone || !cache
    || now_is_time_to_refresh tfSeconds st pair timeframe now

/-- `ticks[-1][0] // 1000`: last-candle timestamp in seconds (only used on
a non-empty tick list). -/
def lastCandleTs (ticks : List Candle) : Nat :=
  (match ticks.getLast? with
    | some cd => cd.ts
    | none => 0) / 1000

/-- One `(pair, timeframe)` pass of `refresh_latest_ohlcv`: whether a
network fetch was issued, the final cache state, and the entry recorded in
the returned result map (`none` when the fetch raised and the key was
excluded). -/
structure RefreshOneRun (DF : Type) where
  fetched : Bool
  state : ExchangeState DF
  result : Option DF

/-- `refresh_latest_ohlcv` restricted to a single requested
`(pair, timeframe)` key.  If the fetch decision fires and the network
result is an exception, the key is logged and skipped; otherwise
`_pairs_last_refresh_time[key]` is set to the last-candle time when the
tick list is non-empty, the ticks are normalized, and with `cache=true`
the `_klines` entry is replaced.  A key not needing a fetch is served from
`self.klines(key, copy=False)`. -/
def refresh_latest_ohlcv_one {DF : Type}
    (normalize : List Candle → String → String → DF)
    (tfSeconds : String → Nat) (st : ExchangeState DF)
    (pair timeframe : String) (cache : Bool) (now : Nat)
    (fetch : Except Unit (List Candle)) : RefreshOneRun DF :=
  if refreshNeedsFetch tfSeconds st pair timeframe cache now then
    match fetch with
    | .error _ => ⟨true, st, none⟩
    | .ok ticks =>
      let st1 :=
        if ticks.isEmpty then st
        else { st with
          pairsLastRefreshTime :=
            assocSet (pair, timeframe) (lastCandleTs ticks)
              st.pairsLastRefreshTime }
      let df := normalize ticks timeframe pair
      let st2 :=
        if cache then { st1 with klines := assocSet (pair, timeframe) df st1.klines }
        else st1
      ⟨true, st2, some df⟩
  else ⟨false, st, assocGet (pair, timeframe) st.klines⟩

/-! ## `mcookbook/pairlist/volume.py` — `VolumePairList` -/

/-- A ticker record as the volume handler reads it: the `symbol` field and
the `quoteVolume` field (the configured `sort_key` is validated to be
exactly `quoteVolume`).  Volumes are modelled as integers; only ordering
and comparison against `min_value` matter to the handler. -/
structure Ticker where
  symbol : String
  quoteVolume : Int
deriving DecidableEq

/-- The `VolumePairListConfig` fields the filter reads (`sort_key` is
fixed to `quoteVolume` by its validator). -/
structure VolumePairListConfig where
  number_assets : Nat
  min_value : Int
  lookback_timeframe : String
  lookback_period : Nat
deriving DecidableEq

/-- `_use_range`: a lookback window is active when the lookback timeframe
has positive minutes and `lookback_period > 0`.  `tfMinutes` stands for
`tf.to_minutes`. -/
def volumeUseRange (tfMinutes : String → Nat) (cfg : VolumePairListConfig) : Bool :=
  decide (0 < tfMinutes cfg.lookback_timeframe) && decide (0 < cfg.lookback_period)

/-- What the handler reads off one pair's candle dataframe in lookback
mode: pandas `df.empty`, and the windowed quote volume
`(volume * (high+low+close)/3).rolling(lookback_period).sum().iloc[-1]`
(an external pandas computation, passed in evaluated). -/
structure CandleWindow where
  empty : Bool
  rollingQuoteVolume : Int
deriving DecidableEq

/-- Insert `x` into a descending-sorted list, after any element of equal
key: the insertion step of a stable descending sort. -/
def insertDescBy {α : Type} (key : α → Int) (x : α) : List α → List α
  | [] => [x]
  | y :: ys => if key y < key x then x :: y :: ys else y :: insertDescBy key x ys

/-- Python `sorted(l, key=key, reverse=True)`.  Python's `sorted` is
specified to be stable, and a stable sort's output is uniquely determined
by the key order, so any stable descending sort embeds it; this one
inserts each element in turn after its equals. -/
def pySortedDescBy {α : Type} (key : α → Int) (l : List α) : List α :=
  l.foldl (fun acc x => insertDescBy key x acc) []

/-- `[v for k, v in tickers.items() if k in pairlist]`: the snapshot
records selected by the incoming pairlist, in dict insertion order. -/
def volumeFilteredTickers (pairlist : List String)
    (tickers : List (String × Ticker)) : List Ticker :=
  (tickers.filter (fun kv => kv.1 ∈ pairlist)).map Prod.snd

/-- The minimum-volume step: only applied when `min_value > 0`, and it
keeps a ticker only when its volume is *strictly* above `min_value`. -/
def volumeMinFilter (cfg : VolumePairListConfig) (l : List Ticker) : List Ticker :=
  if 0 < cfg.min_value then l.filter (fun t => cfg.min_value < t.quoteVolume)
  else l

/-- The in-place update of one ticker dict in the lookback loop: with
candle data present and non-empty, `ticker["quoteVolume"]` is overwritten
with the rolling windowed sum, otherwise with `0`. -/
def updateTickerQuoteVolume (lookback_timeframe : String)
    (candles : List ((String × String) × CandleWindow)) (t : Ticker) : Ticker :=
  match assocGet (t.symbol, lookback_timeframe) candles with
  | some w =>
    if !w.empty then { t with quoteVolume := w.rollingQuoteVolume }
    else { t with quoteVolume := 0 }
  | none => { t with quoteVolume := 0 }

/-- `_allow_list_for_active_markets` (named `_whitelist_for_active_markets`
in `pairlist/abc.py`): raise `OperationalException` when markets were
never loaded, otherwise keep the pairs present in markets, deduplicated,
in first-occurrence order. -/
def allow_list_for_active_markets (markets : List String)
    (pairlist : List String) : Except String (List String) :=
  if markets.isEmpty then
    .error "Markets not loaded. Make sure that exchange is initialized correctly."
  else
    .ok (pairlist.foldl
      (fun acc pair =>
        if pair ∈ markets then (if pair ∈ acc then acc else acc ++ [pair])
        else acc)
      [])

/-- Result of one `VolumePairList.filter_pairlist` call: the returned list
(or the propagated `OperationalException`), the final state of the shared
ticker snapshot, and the final state of the caller's pairlist argument. -/
structure VolumeFilterRun where
  result : Except String (List String)
  tickersAfter : List (String × Ticker)
  pairlistAfter : List String

/-- `VolumePairList.filter_pairlist(pairlist, tickers)`.

`tickers` is the shared snapshot (an insertion-ordered dict), `pairlist`
the incoming list.  `filtered_tickers` aliases the snapshot's dict
values, so the lookback loop's `filtered_tickers[idx]["quoteVolume"] = …`
writes through to the snapshot: the model applies the same update to the
snapshot entries of the selected keys.  `pairCacheKeys` are the keys of
the handler's `_pair_cache` and `candlesOracle` the dict returned by
`refresh_latest_ohlcv(needed_pairs, cache=False)` (an external call).
After the optional lookback pass: drop tickers at or below `min_value`
(only when `min_value > 0`), stable-sort descending by `quoteVolume`,
validate against active markets, remove block-listed pairs, and truncate
to `number_assets`. -/
def volume_filter_pairlist (tfMinutes : String → Nat)
    (compile : String → Option (String → Bool))
    (cfg : VolumePairListConfig) (mgr : PairListManager)
    (pairCacheKeys : List String)
    (candlesOracle : List ((String × String) × CandleWindow))
    (pairlist : List String) (tickers : List (String × Ticker)) :
    VolumeFilterRun :=
  let filtered_tickers := volumeFilteredTickers pairlist tickers
  let rangePass :
      List (String × Ticker) × List Ticker :=
    if volumeUseRange tfMinutes cfg then
      let needed := (filtered_tickers.map Ticker.symbol).filter
        (fun p => !(p ∈ pairCacheKeys))
      let candles := if needed.isEmpty then [] else candlesOracle
      let upd := updateTickerQuoteVolume cfg.lookback_timeframe candles
      (tickers.map (fun kv => if kv.1 ∈ pairlist then (kv.1, upd kv.2) else kv),
        filtered_tickers.map upd)
    else (tickers, filtered_tickers)
  let tickersAfter := rangePass.1
  let filtered2 := rangePass.2
  let filtered3 := volumeMinFilter cfg filtered2
  let sorted_tickers := pySortedDescBy Ticker.quoteVolume filtered3
  let result : Except String (List String) :=
    match allow_list_for_active_markets mgr.markets
        (sorted_tickers.map Ticker.symbol) with
    | .error e => .error e
    | .ok pairs =>
      .ok (((verify_block_list compile mgr pairs).ret).take cfg.number_assets)
  ⟨result, tickersAfter, pairlist⟩

/-! ## Definitions following the spec's wording

Used only to compare a claim's wording against the code's behavior; each
is written from the claim text, not from the source. -/

/-- Claim C2's staleness condition, as worded: a cached entry is stale
when `now >= last_refresh_time + timeframe duration in seconds`. -/
def spec_is_stale (lastRefreshTime duration now : Nat) : Bool :=
  decide (lastRefreshTime + duration ≤ now)

/-- Claim C9's minimum-volume step, as worded: drop pairs *below* the
configured minimum volume (so a pair exactly at the minimum stays in the
remainder). -/
def spec_min_volume_remainder (minValue : Int) (l : List Ticker) : List Ticker :=
  l.filter (fun t => decide (minValue ≤ t.quoteVolume))

/-! ## Theorems: `async_retrier` (claims C1, C7) -/

/-- Unfolding: a successful invocation ends the run immediately. -/
theorem retrierAux_success {α : Type} {f : Nat → CallOutcome α} {kc : Bool}
    {inv : Nat} {v : α} (h : f inv = .success v) (count : Nat) :
    retrierAux f kc count inv = ⟨.ok v, inv + 1, []⟩ := by
  cases count <;> (unfold retrierAux; rw [h])

/-- Unfolding: a `TemporaryError` with exhausted budget re-raises. -/
theorem retrierAux_temp_zero {α : Type} {f : Nat → CallOutcome α} {kc : Bool}
    {inv : Nat} {d s : Bool} (h : f inv = .tempError d s) :
    retrierAux f kc 0 inv = ⟨.raisedTemp d s, inv + 1, []⟩ := by
  unfold retrierAux; rw [h]

/-- Unfolding: a `TemporaryError` with budget left decrements the budget,
optionally sleeps the `DDosProtection` backoff, and retries. -/
theorem retrierAux_temp_succ {α : Type} {f : Nat → CallOutcome α} {kc : Bool}
    {inv : Nat} {d s : Bool} (h : f inv = .tempError d s) (c : Nat) :
    retrierAux f kc (c + 1) inv =
      ⟨(retrierAux f kc c (inv + 1)).result,
        (retrierAux f kc c (inv + 1)).invocations,
        (if d && !(kc && s)
          then [calculate_backoff (c + 1) API_RETRY_COUNT]
          else []) ++ (retrierAux f kc c (inv + 1)).sleeps⟩ := by
  conv_lhs => unfold retrierAux
  rw [h]

/-- If the operation fails with `TemporaryError` on its first `k`
invocations (counting from `inv`), succeeds on invocation `inv + k`, and
`k` does not exceed the remaining budget, the wrapper returns the success
value after exactly `k + 1` further invocations. -/
theorem retrierAux_succeeds {α : Type} (f : Nat → CallOutcome α) (kc : Bool) (v : α) :
    ∀ (k count inv : Nat), (∀ i, i < k → (f (inv + i)).isTemp = true) →
      f (inv + k) = .success v → k ≤ count →
      (retrierAux f kc count inv).result = .ok v ∧
        (retrierAux f kc count inv).invocations = inv + k + 1 := by
  intro k
  induction k with
  | zero =>
    intro count inv _ hsucc _
    have hf : f inv = .success v := by simpa using hsucc
    rw [retrierAux_success hf count]
    exact ⟨rfl, by simp⟩
  | succ k ih =>
    intro count inv hfail hsucc hk
    have h0 : (f inv).isTemp = true := by simpa using hfail 0 (Nat.succ_pos k)
    cases hf : f inv with
    | success w => rw [hf] at h0; simp [CallOutcome.isTemp] at h0
    | fatalError => rw [hf] at h0; simp [CallOutcome.isTemp] at h0
    | tempError d s =>
      match count, hk with
      | c + 1, hk =>
        have hfail' : ∀ i, i < k → (f (inv + 1 + i)).isTemp = true := by
          intro i hi
          have := hfail (i + 1) (by omega)
          simpa [Nat.add_assoc, Nat.add_comm 1 i] using this
        have hsucc' : f (inv + 1 + k) = .success v := by
          have : inv + 1 + k = inv + (k + 1) := by omega
          rw [this]; exact hsucc
        have := ih c (inv + 1) hfail' hsucc' (by omega)
        rw [retrierAux_temp_succ hf c]
        exact ⟨this.1, by simp only []; rw [this.2]; omega⟩

/-- If the operation fails with `TemporaryError` on every invocation, the
wrapper re-raises the error of the *final* invocation after consuming the
whole budget: `count + 1` further invocations. -/
theorem retrierAux_exhausts {α : Type} (f : Nat → CallOutcome α) (kc : Bool)
    (d s : Nat → Bool) (h : ∀ i, f i = .tempError (d i) (s i)) :
    ∀ (count inv : Nat),
      (retrierAux f kc count inv).result = .raisedTemp (d (inv + count)) (s (inv + count)) ∧
        (retrierAux f kc count inv).invocations = inv + count + 1 := by
  intro count
  induction count with
  | zero =>
    intro inv
    rw [retrierAux_temp_zero (h inv)]
    exact ⟨by simp, rfl⟩
  | succ c ih =>
    intro inv
    have := ih (inv + 1)
    rw [retrierAux_temp_succ (h inv) c]
    have harith : inv + 1 + c = inv + (c + 1) := by omega
    refine ⟨?_, by simp only []; rw [this.2]; omega⟩
    simp only []
    rw [this.1, harith]

/-- C1: with retry budget `N`, an operation raising `TemporaryError` on its
first `k ≤ N` invocations and then succeeding makes the wrapper return the
success value after exactly `k + 1` invocations; an operation raising
`TemporaryError` on every invocation with budget `M` makes the wrapper
re-raise the final (`M`-th) invocation's error after exactly `M + 1`
invocations, never swallowing it. -/
theorem async_retrier_budget (f g : Nat → CallOutcome Nat) (kc kcg : Bool)
    (v k N M : Nat) (gd gs : Nat → Bool)
    (hfail : ∀ i, i < k → (f i).isTemp = true)
    (hsucc : f k = .success v) (hk : k ≤ N)
    (hg : ∀ i, g i = .tempError (gd i) (gs i)) :
    ((async_retrier f kc N).result = .ok v ∧
        (async_retrier f kc N).invocations = k + 1) ∧
      ((async_retrier g kcg M).result = .raisedTemp (gd M) (gs M) ∧
        (async_retrier g kcg M).invocations = M + 1) := by
  constructor
  · have := retrierAux_succeeds f kc v k N 0 (by simpa using hfail) (by simpa using hsucc) hk
    exact ⟨this.1, by simp only [async_retrier]; rw [this.2]; omega⟩
  · have := retrierAux_exhausts g kcg gd gs hg M 0
    refine ⟨?_, by simp only [async_retrier]; rw [this.2]; omega⟩
    have h0 : (0 : Nat) + M = M := by omega
    simpa [async_retrier, h0] using this.1

/-- Witness for C1 at the spec's concrete instances: 3 failures then
success with budget 4 returns the value after 4 invocations; permanent
failure with budget 2 raises after 3 invocations. -/
theorem async_retrier_budget_witness :
    ((async_retrier (fun i => if i < 3 then .tempError false false else .success 7) false 4).result
          = .ok 7 ∧
        (async_retrier (fun i => if i < 3 then .tempError false false else .success 7)
              false 4).invocations = 4) ∧
      ((async_retrier (fun _ => CallOutcome.tempError (α := Nat) true false) true 2).result
          = .raisedTemp true false ∧
        (async_retrier (fun _ => CallOutcome.tempError (α := Nat) true false) true 2).invocations
          = 3) := by
  have h := async_retrier_budget
    (fun i => if i < 3 then .tempError false false else .success 7)
    (fun _ => .tempError true false) false true 7 3 4 2
    (fun _ => true) (fun _ => false)
    (by intro i hi; simp [hi, CallOutcome.isTemp])
    (by norm_num) (by omega) (fun i => rfl)
  exact h

/-- The full sequence of backoff sleeps for an operation that raises
`DDosProtection` on every invocation: one sleep per retry except those
where the KuCoin `429000` soft path applies, and the sleep before the
`j`-th retry (0-based, when `count - j` attempts are still left) is
`calculate_backoff (count - j) API_RETRY_COUNT`. -/
theorem retrierAux_sleeps_ddos {α : Type} (g : Nat → CallOutcome α)
    (soft : Nat → Bool) (kc : Bool)
    (hg : ∀ i, g i = .tempError true (soft i)) :
    ∀ (count inv : Nat),
      (retrierAux g kc count inv).sleeps
        = ((List.range count).filter (fun j => !(kc && soft (inv + j)))).map
            (fun j => calculate_backoff (count - j) API_RETRY_COUNT) := by
  intro count
  induction count with
  | zero => intro inv; rw [retrierAux_temp_zero (hg inv)]; simp
  | succ c ih =>
    intro inv
    rw [retrierAux_temp_succ (hg inv) c]
    simp only []
    rw [ih (inv + 1), List.range_succ_eq_map]
    simp only [List.filter_cons, List.filter_map, List.map_map, Bool.true_and,
      Nat.add_zero, Function.comp_def, Nat.succ_sub_succ]
    have hfc : (List.range c).filter (fun j => !(kc && soft (inv + 1 + j)))
        = (List.range c).filter (fun j => !(kc && soft (inv + Nat.succ j))) := by
      apply List.filter_congr
      intro j _
      have hj : inv + 1 + j = inv + Nat.succ j := by omega
      rw [hj]
    by_cases hsoft : kc && soft inv
    · rw [if_neg (by simp [hsoft])]
      rw [if_neg (by simp [hsoft])]
      rw [List.nil_append, hfc]
      simp [Nat.succ_sub_succ]
    · rw [if_pos (by simp [eq_false_of_ne_true hsoft]),
        if_pos (by simp [eq_false_of_ne_true hsoft])]
      rw [List.singleton_append, hfc]
      simp [Nat.succ_sub_succ]

/-- C7: for an operation that raises `DDosProtection` (the rate-limited
`TemporaryError`) on every invocation, the wrapper's sleep sequence
contains, for each retry `j` with `N - j` attempts still left, the delay
`(API_RETRY_COUNT - (N - j))^2 + 1` seconds — except the retries where the
provider-specific soft path applies (KuCoin with the `429000` code), which
sleep nothing. -/
theorem async_retrier_ddos_backoff (g : Nat → CallOutcome Nat)
    (soft : Nat → Bool) (kc : Bool) (N : Nat)
    (hg : ∀ i, g i = .tempError true (soft i)) :
    (async_retrier g kc N).sleeps
      = ((List.range N).filter (fun j => !(kc && soft j))).map
          (fun j => ((API_RETRY_COUNT : Int) - ((N - j : Nat) : Int)) ^ 2 + 1) := by
  have := retrierAux_sleeps_ddos g soft kc hg N 0
  simpa [calculate_backoff] using this

/-- Witness for C7 with budget 2 on KuCoin: the first failure carries the
`429000` soft code (no sleep), the second does not, so exactly one backoff
of `(4 - 1)^2 + 1 = 10` seconds is slept. -/
theorem async_retrier_ddos_backoff_witness :
    (async_retrier (fun i => CallOutcome.tempError (α := Nat) true (i == 0)) true 2).sleeps
      = [10] := by
  have h := async_retrier_ddos_backoff (fun i => .tempError true (i == 0))
    (fun i => i == 0) true 2 (fun i => rfl)
  simpa using h

/-! ## Theorems: the remove-while-iterating loop -/

theorem removeFirst_length_le {α : Type} [DecidableEq α] (x : α) (l : List α) :
    (removeFirst x l).length ≤ l.length := by
  induction l with
  | nil => simp [removeFirst]
  | cons y ys ih =>
    by_cases h : y = x
    all_goals simp [removeFirst, h]
    all_goals omega

/-- Removing an element that differs from the head commutes with `cons`. -/
theorem removeFirst_cons_ne {α : Type} [DecidableEq α] {x y : α} (h : y ≠ x)
    (l : List α) : removeFirst x (y :: l) = y :: removeFirst x l := by
  simp [removeFirst, h]

/-- A non-rejected head survives the whole removal loop untouched. -/
theorem removeIterLoop_cons_keep {α : Type} [DecidableEq α] {reject : α → Bool}
    {x : α} (hx : reject x = false) :
    ∀ (ps cur : List α),
      removeIterLoop reject ps (x :: cur) = x :: removeIterLoop reject ps cur := by
  intro ps
  induction ps with
  | nil => intro cur; rfl
  | cons p ps ih =>
    intro cur
    by_cases hp : reject p
    · have hne : x ≠ p := by
        intro he; rw [he] at hx; rw [hx] at hp; exact Bool.false_ne_true hp
      simp only [removeIterLoop, hp, if_pos]
      rw [removeFirst_cons_ne hne cur, ih]
    · simp only [removeIterLoop, hp, if_neg, Bool.false_eq_true, not_false_iff]
      rw [ih]

/-- Running the removal loop over a snapshot of the list itself removes
exactly the rejected elements: the idiom implements `filter`. -/
theorem removeIterLoop_self {α : Type} [DecidableEq α] (reject : α → Bool) :
    ∀ l : List α, removeIterLoop reject l l = l.filter (fun a => !reject a) := by
  intro l
  induction l with
  | nil => rfl
  | cons x xs ih =>
    by_cases hx : reject x
    · simp only [removeIterLoop, hx, if_pos, removeFirst, if_pos rfl,
        List.filter_cons, Bool.not_true, ih]
      simp [hx]
    · have hx' : reject x = false := eq_false_of_ne_true hx
      simp only [removeIterLoop, hx', Bool.false_eq_true, if_neg, not_false_iff]
      rw [removeIterLoop_cons_keep hx' xs xs, ih]
      simp [hx']

/-! ## Theorems: `expand_pairlist` (claim C5) -/

/-- C5: the `keep_invalid` whitelist cleanup removes elements from the
list it is iterating over, so Python's iterator skips the element shifted
into the removed slot: with two consecutive non-matching patterns that
both fail the whitelist, only the first is dropped and `"B*"` — which
fails the whitelist — survives in the output.  This contradicts the
documented behavior ("drops invalid pairs silently") at this input. -/
theorem expand_pairlist_prune_skips_element :
    expand_pairlist (fun _ => some (fun _ => false)) ["A*", "B*"] [] true
        = .ok ["B*"]
      ∧ whitelistOk "B*" = false := by
  constructor
  · simp [expand_pairlist, expandKeep, pruneLoop, removeFirst, whitelistOk,
      whitelistChar]
  · decide

/-! ## Theorems: `PairListManager` block-list (claims C6, C10) -/

/-- An invalid pattern anywhere in the list makes the default expansion
pass raise `ValueError`. -/
theorem expandNoKeep_error_of_invalid (compile : String → Option (String → Bool))
    (available : List String) :
    ∀ (wl : List String) (p : String), p ∈ wl → compile p = none →
      ∃ e, expandNoKeep compile available wl = .error e := by
  intro wl
  induction wl with
  | nil => intro p hp; cases hp
  | cons q rest ih =>
    intro p hp hbad
    cases hq : compile q with
    | none => exact ⟨"Wildcard error in " ++ q, by simp [expandNoKeep, hq]⟩
    | some mtch =>
      cases List.mem_cons.mp hp with
      | inl heq =>
        rw [heq] at hbad
        rw [hbad] at hq
        cases hq
      | inr hmem =>
        obtain ⟨e, he⟩ := ih p hmem hbad
        exact ⟨e, by simp [expandNoKeep, hq, he]⟩

/-- C6: when the configured block-list contains a pattern the regex engine
rejects, `verify_block_list` returns the empty list instead of raising,
and the caller's input list is left untouched. -/
theorem verify_block_list_invalid_wildcard (compile : String → Option (String → Bool))
    (m : PairListManager) (pairlist : List String) (p : String)
    (hp : p ∈ m.block_list) (hbad : compile p = none) :
    (verify_block_list compile m pairlist).ret = []
      ∧ (verify_block_list compile m pairlist).argAfter = pairlist := by
  obtain ⟨e, he⟩ :=
    expandNoKeep_error_of_invalid compile m.markets m.block_list p hp hbad
  have hexp : expanded_block_list compile m = .error e := by
    simp [expanded_block_list, expand_pairlist, he]
  simp [verify_block_list, hexp]

/-- Witness for C6: a block-list holding the invalid wildcard `*/BTC`
(invalid regex: nothing precedes the quantifier) makes `verify_block_list`
return `[]` for a non-empty input list. -/
theorem verify_block_list_invalid_wildcard_witness :
    (verify_block_list (fun _ => none) ⟨["*/BTC"], ["ETH/BTC"]⟩ ["ETH/BTC"]).ret = []
      ∧ (verify_block_list (fun _ => none) ⟨["*/BTC"], ["ETH/BTC"]⟩
          ["ETH/BTC"]).argAfter = ["ETH/BTC"] :=
  verify_block_list_invalid_wildcard (fun _ => none) ⟨["*/BTC"], ["ETH/BTC"]⟩
    ["ETH/BTC"] "*/BTC" (by simp) rfl

/-- C10: when the block-list expands cleanly, `verify_block_list` mutates
the caller's list in place — the returned list is the caller's list object
— and afterwards that list is exactly the input with every pair of the
expanded block-list removed (iterating over `pairlist.copy()` makes the
removal loop reliable, unlike the whitelist prune loop). -/
theorem verify_block_list_removes_in_place (compile : String → Option (String → Bool))
    (m : PairListManager) (pairlist : List String) (bl : List String)
    (h : expanded_block_list compile m = .ok bl) :
    (verify_block_list compile m pairlist).ret
        = (verify_block_list compile m pairlist).argAfter
      ∧ (verify_block_list compile m pairlist).argAfter
          = pairlist.filter (fun p => !decide (p ∈ bl)) := by
  simp [verify_block_list, h, removeIterLoop_self]

/-- Witness for C10 with an exact-match engine: block-list `ETH/USDT`
against markets `BTC/USDT, ETH/USDT` strips `ETH/USDT` from the caller's
list, and the returned list is the caller's (mutated) list. -/
theorem verify_block_list_removes_in_place_witness :
    (verify_block_list (fun pat => some (fun s => pat == s))
          ⟨["ETH/USDT"], ["BTC/USDT", "ETH/USDT"]⟩
          ["BTC/USDT", "ETH/USDT"]).ret
        = (verify_block_list (fun pat => some (fun s => pat == s))
            ⟨["ETH/USDT"], ["BTC/USDT", "ETH/USDT"]⟩
            ["BTC/USDT", "ETH/USDT"]).argAfter
      ∧ (verify_block_list (fun pat => some (fun s => pat == s))
            ⟨["ETH/USDT"], ["BTC/USDT", "ETH/USDT"]⟩
            ["BTC/USDT", "ETH/USDT"]).argAfter = ["BTC/USDT"] := by
  have h := verify_block_list_removes_in_place
    (fun pat => some (fun s => pat == s))
    ⟨["ETH/USDT"], ["BTC/USDT", "ETH/USDT"]⟩
    ["BTC/USDT", "ETH/USDT"] ["ETH/USDT"] (by rfl)
  exact ⟨h.1, by rw [h.2]; rfl⟩

/-! ## Theorems: handler `filter_pairlist` mutation (claim C4) -/

/-- C4 counterexample: the generic `PairList.filter_pairlist` of
`pairlist/abc.py` removes rejected pairs from the caller's list itself
(it copies the list only to iterate safely): with a validator rejecting
everything, the input list `["BTC/USDT"]` is empty after the call. -/
theorem base_filter_pairlist_mutates_input :
    base_filter_pairlist (fun _ => false) true ["BTC/USDT"]
        = ⟨[], []⟩
      ∧ (base_filter_pairlist (fun _ => false) true ["BTC/USDT"]).argAfter
          ≠ ["BTC/USDT"] := by
  constructor
  · simp [base_filter_pairlist, removeIterLoop, removeFirst]
  · simp [base_filter_pairlist, removeIterLoop, removeFirst]

/-- C4 amended: the two concrete handlers never mutate the incoming
pairlist (`StaticPairList.filter_pairlist` works on a deep copy,
`VolumePairList.filter_pairlist` only reads it), but the generic base
implementation filters the caller's list in place: it returns the very
input object, holding exactly the pairs `_validate_pair` accepted. -/
theorem filter_pairlist_mutation_behavior (validate : String → Bool)
    (allow pairlist pl2 : List String) (tfMinutes : String → Nat)
    (compile : String → Option (String → Bool)) (cfg : VolumePairListConfig)
    (mgr : PairListManager) (cacheKeys : List String)
    (candles : List ((String × String) × CandleWindow)) (pl3 : List String)
    (tickers : List (String × Ticker)) :
    (static_filter_pairlist allow pairlist).argAfter = pairlist
      ∧ (volume_filter_pairlist tfMinutes compile cfg mgr cacheKeys candles
          pl3 tickers).pairlistAfter = pl3
      ∧ base_filter_pairlist validate true pl2
          = ⟨pl2.filter validate, pl2.filter validate⟩ := by
  refine ⟨rfl, rfl, ?_⟩
  have h := removeIterLoop_self (fun p => !validate p) pl2
  have hf : pl2.filter (fun a => !!validate a) = pl2.filter validate := by
    apply List.filter_congr
    intro a _
    simp
  simp only [base_filter_pairlist, if_pos]
  rw [h, hf]

/-! ## Theorems: OHLCV refresh (claims C2, C3) -/

/-- Dict lookup after assignment at the same key. -/
theorem assocGet_assocSet_self {κ ν : Type} [DecidableEq κ] (k : κ) (v : ν) :
    ∀ l : List (κ × ν), assocGet k (assocSet k v l) = some v := by
  intro l
  induction l with
  | nil => simp [assocSet, assocGet]
  | cons kv rest ih =>
    obtain ⟨k', v'⟩ := kv
    by_cases h : k' = k
    · simp [assocSet, assocGet, h]
    · simp [assocSet, assocGet, h, ih]

/-- C2 counterexample to the claim's `>=` staleness boundary: a cached
entry whose `last_refresh_time` is 100 with a 60-second timeframe, read at
`now = 160`.  The claim's condition (`now >= last_refresh_time +
duration`) calls this stale and demands a fetch; the code's
`_now_is_time_to_refresh` uses a strict `<` and serves it from cache. -/
theorem refresh_boundary_counterexample :
    refreshNeedsFetch (fun _ => 60)
        (⟨[(("BTC/USDT", "1m"), ())], [(("BTC/USDT", "1m"), 100)]⟩ : ExchangeState Unit)
        "BTC/USDT" "1m" true 160 = false
      ∧ spec_is_stale 100 60 160 = true := by
  constructor
  · rfl
  · rfl

/-- C2 amended: with `cache=true` a `(pair, timeframe)` key is fetched iff
it is absent from `_klines` or *strictly* stale
(`last_refresh_time + duration < now`); and for an uncached key, two calls
in immediate succession issue exactly one network fetch — the first call
fetches, and as long as the second call happens no later than one
timeframe duration after the last fetched candle's timestamp, the second
call is served from the cache and returns the normalized series stored by
the first. -/
theorem refresh_latest_ohlcv_cache (DF : Type)
    (normalize : List Candle → String → String → DF) (tfSeconds : String → Nat)
    (st0 : ExchangeState DF) (pair timeframe : String) (now now2 : Nat)
    (ticks : List Candle) (fetch2 : Except Unit (List Candle))
    (hfirst : assocGet (pair, timeframe) st0.klines = none)
    (hticks : ticks ≠ [])
    (hfresh : ¬(lastCandleTs ticks + tfSeconds timeframe < now2)) :
    (∀ (st : ExchangeState DF) (nw : Nat),
        refreshNeedsFetch tfSeconds st pair timeframe true nw = true
          ↔ (assocGet (pair, timeframe) st.klines = none
              ∨ (assocGet (pair, timeframe) st.pairsLastRefreshTime).getD 0
                  + tfSeconds timeframe < nw))
      ∧ (refresh_latest_ohlcv_one normalize tfSeconds st0 pair timeframe true now
            (.ok ticks)).fetched = true
      ∧ (refresh_latest_ohlcv_one normalize tfSeconds
            (refresh_latest_ohlcv_one normalize tfSeconds st0 pair timeframe true now
              (.ok ticks)).state
            pair timeframe true now2 fetch2).fetched = false
      ∧ (refresh_latest_ohlcv_one normalize tfSeconds
            (refresh_latest_ohlcv_one normalize tfSeconds st0 pair timeframe true now
              (.ok ticks)).state
            pair timeframe true now2 fetch2).result
          = some (normalize ticks timeframe pair) := by
  have hiff : ∀ (st : ExchangeState DF) (nw : Nat),
      refreshNeedsFetch tfSeconds st pair timeframe true nw = true
        ↔ (assocGet (pair, timeframe) st.klines = none
            ∨ (assocGet (pair, timeframe) st.pairsLastRefreshTime).getD 0
                + tfSeconds timeframe < nw) := by
    intro st nw
    simp [refreshNeedsFetch, now_is_time_to_refresh, Option.isNone_iff_eq_none]
  have hcond : refreshNeedsFetch tfSeconds st0 pair timeframe true now = true :=
    (hiff st0 now).mpr (Or.inl hfirst)
  have hte : ticks.isEmpty = false := List.isEmpty_eq_false.mpr hticks
  have hrun : refresh_latest_ohlcv_one normalize tfSeconds st0 pair timeframe true now
      (.ok ticks)
      = ⟨true,
          ⟨assocSet (pair, timeframe) (normalize ticks timeframe pair) st0.klines,
            assocSet (pair, timeframe) (lastCandleTs ticks) st0.pairsLastRefreshTime⟩,
          some (normalize ticks timeframe pair)⟩ := by
    simp [refresh_latest_ohlcv_one, hcond, hte]
  rw [hrun]
  have hcond2 : refreshNeedsFetch tfSeconds
      (⟨assocSet (pair, timeframe) (normalize ticks timeframe pair) st0.klines,
        assocSet (pair, timeframe) (lastCandleTs ticks) st0.pairsLastRefreshTime⟩ :
          ExchangeState DF)
      pair timeframe true now2 = false := by
    rw [← Bool.not_eq_true]
    intro hc
    rcases (hiff _ now2).mp hc with hnone | hstale
    · rw [assocGet_assocSet_self] at hnone
      cases hnone
    · rw [assocGet_assocSet_self] at hstale
      exact hfresh (by simpa using hstale)
  refine ⟨hiff, rfl, ?_, ?_⟩
  · simp [refresh_latest_ohlcv_one, hcond2]
  · simp [refresh_latest_ohlcv_one, hcond2, assocGet_assocSet_self]

/-- Witness for C2: an empty cache, a 60-second timeframe, a fetch
returning one candle at 90 000 ms (so `last_refresh_time = 90`), and a
second call one second after the first: the first call fetches, the second
is served from cache. -/
theorem refresh_latest_ohlcv_cache_witness :
    (refresh_latest_ohlcv_one (fun _ _ _ => ()) (fun _ => 60)
          (⟨[], []⟩ : ExchangeState Unit) "BTC/USDT" "1m" true 100
          (.ok [⟨90000, 1, 1, 1, 1, 1⟩])).fetched = true
      ∧ (refresh_latest_ohlcv_one (fun _ _ _ => ()) (fun _ => 60)
            (refresh_latest_ohlcv_one (fun _ _ _ => ()) (fun _ => 60)
              (⟨[], []⟩ : ExchangeState Unit) "BTC/USDT" "1m" true 100
              (.ok [⟨90000, 1, 1, 1, 1, 1⟩])).state
            "BTC/USDT" "1m" true 101 (.error ())).fetched = false := by
  have h := refresh_latest_ohlcv_cache Unit (fun _ _ _ => ()) (fun _ => 60)
    (⟨[], []⟩ : ExchangeState Unit) "BTC/USDT" "1m" 100 101
    [⟨90000, 1, 1, 1, 1, 1⟩] (.error ()) rfl (by simp)
    (by simp [lastCandleTs])
  exact ⟨h.2.1, h.2.2.1⟩

/-- C3: when the fetch decision fires and the network returns a non-empty
candle list, the new `_pairs_last_refresh_time` entry is the last returned
candle's timestamp converted from milliseconds to seconds — an expression
not involving the wall-clock `now` — and the `_klines` entry and the
result-map entry are both the normalized series. -/
theorem refresh_sets_last_candle_time (DF : Type)
    (normalize : List Candle → String → String → DF) (tfSeconds : String → Nat)
    (st : ExchangeState DF) (pair timeframe : String) (now : Nat)
    (ticks : List Candle) (hne : ticks ≠ [])
    (hfetch : refreshNeedsFetch tfSeconds st pair timeframe true now = true) :
    assocGet (pair, timeframe)
        (refresh_latest_ohlcv_one normalize tfSeconds st pair timeframe true now
          (.ok ticks)).state.pairsLastRefreshTime
        = some ((ticks.getLast hne).ts / 1000)
      ∧ assocGet (pair, timeframe)
          (refresh_latest_ohlcv_one normalize tfSeconds st pair timeframe true now
            (.ok ticks)).state.klines
          = some (normalize ticks timeframe pair)
      ∧ (refresh_latest_ohlcv_one normalize tfSeconds st pair timeframe true now
          (.ok ticks)).result = some (normalize ticks timeframe pair) := by
  have hte : ticks.isEmpty = false := List.isEmpty_eq_false.mpr hne
  have hlast : lastCandleTs ticks = (ticks.getLast hne).ts / 1000 := by
    simp [lastCandleTs, List.getLast?_eq_getLast ticks hne]
  simp [refresh_latest_ohlcv_one, hfetch, hte, assocGet_assocSet_self, hlast]

/-- Witness for C3: an empty cache fetching two candles ending at
123 456 ms records `last_refresh_time = 123` (not the wall-clock 999). -/
theorem refresh_sets_last_candle_time_witness :
    assocGet ("BTC/USDT", "1m")
        (refresh_latest_ohlcv_one (fun t _ _ => t) (fun _ => 60)
          (⟨[], []⟩ : ExchangeState (List Candle)) "BTC/USDT" "1m" true 999
          (.ok [⟨60000, 1, 1, 1, 1, 1⟩, ⟨123456, 2, 2, 2, 2, 2⟩])).state.pairsLastRefreshTime
        = some 123 := by
  have h := refresh_sets_last_candle_time (List Candle) (fun t _ _ => t)
    (fun _ => 60) (⟨[], []⟩ : ExchangeState (List Candle)) "BTC/USDT" "1m" 999
    [⟨60000, 1, 1, 1, 1, 1⟩, ⟨123456, 2, 2, 2, 2, 2⟩] (by simp) (by rfl)
  rw [h.1]
  rfl

/-! ## Theorems: `VolumePairList` and the ticker snapshot (claims C8, C9) -/

/-- C8 counterexample: `VolumePairList.filter_pairlist` with an active
lookback window (`lookback_timeframe = "1m"`, `lookback_period = 1`) and
no candle data for the pair overwrites the shared snapshot's
`quoteVolume` field in place (here `5 ↦ 0`): the snapshot is not left
unchanged. -/
theorem volume_filter_mutates_tickers :
    (volume_filter_pairlist (fun _ => 1) (fun _ => some (fun _ => false))
          ⟨1, 0, "1m", 1⟩ ⟨[], ["A/B"]⟩ [] [] ["A/B"]
          [("A/B", ⟨"A/B", 5⟩)]).tickersAfter
        = [("A/B", ⟨"A/B", 0⟩)]
      ∧ [("A/B", (⟨"A/B", 5⟩ : Ticker))] ≠ [("A/B", (⟨"A/B", 0⟩ : Ticker))] := by
  constructor
  · rfl
  · decide

/-- C8 amended: no handler ever adds or removes a record of the shared
ticker snapshot (`filter_pairlist` maps over the existing keys), and with
no lookback window configured `VolumePairList.filter_pairlist` leaves the
snapshot entirely unchanged; only the lookback mode overwrites the
`quoteVolume` fields of the selected records. -/
theorem volume_filter_ticker_snapshot (tfMinutes : String → Nat)
    (compile : String → Option (String → Bool))
    (cfg cfg2 : VolumePairListConfig) (mgr : PairListManager)
    (cacheKeys : List String)
    (candles : List ((String × String) × CandleWindow))
    (pairlist : List String) (tickers : List (String × Ticker))
    (h : volumeUseRange tfMinutes cfg = false) :
    (volume_filter_pairlist tfMinutes compile cfg2 mgr cacheKeys candles
          pairlist tickers).tickersAfter.map Prod.fst
        = tickers.map Prod.fst
      ∧ (volume_filter_pairlist tfMinutes compile cfg mgr cacheKeys candles
          pairlist tickers).tickersAfter = tickers := by
  constructor
  · by_cases hr : volumeUseRange tfMinutes cfg2
    · simp only [volume_filter_pairlist, hr, if_pos, List.map_map]
      apply List.map_congr_left
      intro kv _
      by_cases hk : kv.1 ∈ pairlist
      · simp [hk, Function.comp]
      · simp [hk, Function.comp]
    · simp [volume_filter_pairlist, hr]
  · simp [volume_filter_pairlist, h]

/-- Witness for C8 amended: default config (no lookback), one ticker — the
snapshot comes back unchanged and keys are preserved. -/
theorem volume_filter_ticker_snapshot_witness :
    (volume_filter_pairlist (fun _ => 1440) (fun _ => some (fun _ => false))
          ⟨2, 0, "1d", 0⟩ ⟨[], ["A/B"]⟩ [] [] ["A/B"]
          [("A/B", ⟨"A/B", 5⟩)]).tickersAfter.map Prod.fst
        = ["A/B"]
      ∧ (volume_filter_pairlist (fun _ => 1440) (fun _ => some (fun _ => false))
          ⟨2, 0, "1d", 0⟩ ⟨[], ["A/B"]⟩ [] [] ["A/B"]
          [("A/B", ⟨"A/B", 5⟩)]).tickersAfter = [("A/B", ⟨"A/B", 5⟩)] := by
  have h := volume_filter_ticker_snapshot (fun _ => 1440)
    (fun _ => some (fun _ => false)) ⟨2, 0, "1d", 0⟩ ⟨2, 0, "1d", 0⟩
    ⟨[], ["A/B"]⟩ [] [] ["A/B"] [("A/B", ⟨"A/B", 5⟩)] rfl
  exact ⟨h.1, h.2⟩

/-- The stable-descending insertion is a permutation. -/
theorem insertDescBy_perm {α : Type} (key : α → Int) (x : α) :
    ∀ l : List α, (insertDescBy key x l).Perm (x :: l) := by
  intro l
  induction l with
  | nil => exact List.Perm.refl _
  | cons y ys ih =>
    by_cases h : key y < key x
    · simp only [insertDescBy, h, if_pos]
      exact List.Perm.refl _
    · simp only [insertDescBy, h, if_neg, not_false_iff]
      exact (ih.cons y).trans (List.Perm.swap x y ys)

/-- The fold of stable-descending insertions permutes the accumulator and
the input. -/
theorem pySortedDescBy_perm_aux {α : Type} (key : α → Int) :
    ∀ (l acc : List α),
      (l.foldl (fun acc x => insertDescBy key x acc) acc).Perm (acc ++ l) := by
  intro l
  induction l with
  | nil => intro acc; simp
  | cons x xs ih =>
    intro acc
    rw [List.foldl_cons]
    have h1 := ih (insertDescBy key x acc)
    have h2 : (insertDescBy key x acc ++ xs).Perm (acc ++ x :: xs) := by
      have h3 : (insertDescBy key x acc ++ xs).Perm ((x :: acc) ++ xs) :=
        (insertDescBy_perm key x acc).append_right xs
      exact h3.trans (List.perm_middle.symm)
    exact h1.trans h2

/-- `pySortedDescBy` permutes its input. -/
theorem pySortedDescBy_perm {α : Type} (key : α → Int) (l : List α) :
    (pySortedDescBy key l).Perm l := by
  simpa using pySortedDescBy_perm_aux key l []

/-- Inserting into a descending-sorted list keeps it descending-sorted. -/
theorem insertDescBy_pairwise {α : Type} (key : α → Int) (x : α) :
    ∀ l : List α, l.Pairwise (fun a b => key b ≤ key a) →
      (insertDescBy key x l).Pairwise (fun a b => key b ≤ key a) := by
  intro l
  induction l with
  | nil => intro _; simp [insertDescBy]
  | cons y ys ih =>
    intro h
    rw [List.pairwise_cons] at h
    obtain ⟨hy, hys⟩ := h
    by_cases hlt : key y < key x
    · simp only [insertDescBy, hlt, if_pos]
      refine List.Pairwise.cons ?_ (List.Pairwise.cons hy hys)
      intro z hz
      rcases List.mem_cons.mp hz with hz | hz
      · rw [hz]; exact le_of_lt hlt
      · exact le_trans (hy z hz) (le_of_lt hlt)
    · simp only [insertDescBy, hlt, if_neg, not_false_iff]
      refine List.Pairwise.cons ?_ (ih hys)
      intro z hz
      have hz' : z ∈ x :: ys := (insertDescBy_perm key x ys).mem_iff.mp hz
      rcases List.mem_cons.mp hz' with hz1 | hz2
      · rw [hz1]; exact not_lt.mp hlt
      · exact hy z hz2

/-- The insertion fold preserves descending sortedness of the
accumulator. -/
theorem pySortedDescBy_pairwise_aux {α : Type} (key : α → Int) :
    ∀ (l acc : List α), acc.Pairwise (fun a b => key b ≤ key a) →
      (l.foldl (fun acc x => insertDescBy key x acc) acc).Pairwise
        (fun a b => key b ≤ key a) := by
  intro l
  induction l with
  | nil => intro acc h; simpa using h
  | cons x xs ih =>
    intro acc h
    exact ih (insertDescBy key x acc) (insertDescBy_pairwise key x acc h)

/-- `pySortedDescBy` sorts descending by the key. -/
theorem pySortedDescBy_sorted {α : Type} (key : α → Int) (l : List α) :
    (pySortedDescBy key l).Pairwise (fun a b => key b ≤ key a) :=
  pySortedDescBy_pairwise_aux key l [] List.Pairwise.nil

/-- `_allow_list_for_active_markets` is the identity on a duplicate-free
list of pairs that are all present in the (non-empty) markets. -/
theorem allow_list_for_active_markets_id (markets : List String)
    (hm : ¬markets.isEmpty = true) :
    ∀ (l : List String), (∀ p ∈ l, p ∈ markets) → l.Nodup →
      allow_list_for_active_markets markets l = .ok l := by
  have haux : ∀ (l acc : List String), (∀ p ∈ l, p ∈ markets) →
      (acc ++ l).Nodup →
      l.foldl
        (fun acc pair =>
          if pair ∈ markets then (if pair ∈ acc then acc else acc ++ [pair])
          else acc)
        acc = acc ++ l := by
    intro l
    induction l with
    | nil => intro acc _ _; simp
    | cons x xs ih =>
      intro acc hmem hnd
      have hx : x ∈ markets := hmem x (List.mem_cons_self x xs)
      have hxacc : x ∉ acc := by
        intro hin
        have hdisj := (List.nodup_append.mp hnd).2.2
        exact hdisj hin (List.mem_cons_self x xs)
      have hnd' : ((acc ++ [x]) ++ xs).Nodup := by
        rw [List.append_assoc]
        simpa using hnd
      have hmem' : ∀ p ∈ xs, p ∈ markets := fun p hp =>
        hmem p (List.mem_cons_of_mem x hp)
      simp only [List.foldl_cons, hx, if_pos, hxacc, if_neg, not_false_iff]
      rw [ih (acc ++ [x]) hmem' hnd']
      simp
  intro l hmem hnd
  simp only [allow_list_for_active_markets, hm, if_neg, not_false_iff]
  rw [haux l [] hmem (by simpa using hnd)]
  simp

/-- `verify_block_list` does nothing to a list disjoint from the expanded
block-list. -/
theorem verify_block_list_noop (compile : String → Option (String → Bool))
    (m : PairListManager) (pairs bl : List String)
    (hbl : expanded_block_list compile m = .ok bl)
    (hnb : ∀ p ∈ pairs, p ∉ bl) :
    (verify_block_list compile m pairs).ret = pairs := by
  simp only [verify_block_list, hbl, removeIterLoop_self]
  exact List.filter_eq_self.mpr (fun a ha => by simpa using hnb a ha)

/-- C9 counterexample to the claim's "drops pairs below the minimum"
wording: with `min_value = 100` and a pair whose volume is exactly 100,
the code's strict `>` comparison drops it — with `number_assets = 3` the
code returns `["A", "C"]`, while the claim's remainder (volume ≥ minimum)
sorted descending and truncated is `["A", "C", "B"]`. -/
theorem volume_filter_min_boundary_counterexample :
    (volume_filter_pairlist (fun _ => 1440) (fun _ => some (fun _ => false))
          ⟨3, 100, "1d", 0⟩ ⟨[], ["A", "B", "C"]⟩ [] [] ["A", "B", "C"]
          [("A", ⟨"A", 300⟩), ("B", ⟨"B", 100⟩), ("C", ⟨"C", 200⟩)]).result
        = .ok ["A", "C"]
      ∧ ((pySortedDescBy Ticker.quoteVolume
            (spec_min_volume_remainder 100
              [⟨"A", 300⟩, ⟨"B", 100⟩, ⟨"C", 200⟩])).map Ticker.symbol).take 3
          = ["A", "C", "B"]
      ∧ (["A", "C"] : List String) ≠ ["A", "C", "B"] := by
  refine ⟨rfl, rfl, by decide⟩

/-- C9 amended: with no lookback window, `VolumePairList.filter_pairlist`
restricts the snapshot to the incoming pairlist, drops pairs at or below
`min_value` (strictly-greater survive; the filter only runs when
`min_value > 0`), stable-sorts the rest descending by `quoteVolume`, and —
when every surviving symbol is a (duplicate-free) active market and none
is block-listed — truncates to `number_assets`.  The returned sequence is
exactly the descending-sorted survivors cut to `number_assets`. -/
theorem volume_filter_no_lookback_selects (tfMinutes : String → Nat)
    (compile : String → Option (String → Bool)) (cfg : VolumePairListConfig)
    (mgr : PairListManager) (cacheKeys : List String)
    (candles : List ((String × String) × CandleWindow))
    (pairlist : List String) (tickers : List (String × Ticker))
    (bl : List String)
    (hrange : volumeUseRange tfMinutes cfg = false)
    (hmkts : ¬mgr.markets.isEmpty = true)
    (hin : ∀ s ∈ (volumeMinFilter cfg (volumeFilteredTickers pairlist tickers)).map
        Ticker.symbol, s ∈ mgr.markets)
    (hnd : ((volumeMinFilter cfg (volumeFilteredTickers pairlist tickers)).map
        Ticker.symbol).Nodup)
    (hbl : expanded_block_list compile mgr = .ok bl)
    (hnb : ∀ s ∈ (volumeMinFilter cfg (volumeFilteredTickers pairlist tickers)).map
        Ticker.symbol, s ∉ bl) :
    (volume_filter_pairlist tfMinutes compile cfg mgr cacheKeys candles
          pairlist tickers).result
        = .ok (((pySortedDescBy Ticker.quoteVolume
              (volumeMinFilter cfg (volumeFilteredTickers pairlist tickers))).map
            Ticker.symbol).take cfg.number_assets)
      ∧ (pySortedDescBy Ticker.quoteVolume
            (volumeMinFilter cfg (volumeFilteredTickers pairlist tickers))).Pairwise
          (fun a b => b.quoteVolume ≤ a.quoteVolume)
      ∧ (pySortedDescBy Ticker.quoteVolume
            (volumeMinFilter cfg (volumeFilteredTickers pairlist tickers))).Perm
          (volumeMinFilter cfg (volumeFilteredTickers pairlist tickers)) := by
  set kept := volumeMinFilter cfg (volumeFilteredTickers pairlist tickers) with hkept
  have hperm : ((pySortedDescBy Ticker.quoteVolume kept).map Ticker.symbol).Perm
      (kept.map Ticker.symbol) :=
    (pySortedDescBy_perm Ticker.quoteVolume kept).map Ticker.symbol
  have hin' : ∀ s ∈ (pySortedDescBy Ticker.quoteVolume kept).map Ticker.symbol,
      s ∈ mgr.markets := fun s hs => hin s (hperm.mem_iff.mp hs)
  have hnd' : ((pySortedDescBy Ticker.quoteVolume kept).map Ticker.symbol).Nodup :=
    hperm.nodup_iff.mpr hnd
  have hnb' : ∀ s ∈ (pySortedDescBy Ticker.quoteVolume kept).map Ticker.symbol,
      s ∉ bl := fun s hs => hnb s (hperm.mem_iff.mp hs)
  have hallow : allow_list_for_active_markets mgr.markets
      ((pySortedDescBy Ticker.quoteVolume kept).map Ticker.symbol)
      = .ok ((pySortedDescBy Ticker.quoteVolume kept).map Ticker.symbol) :=
    allow_list_for_active_markets_id mgr.markets hmkts _ hin' hnd'
  have hverify := verify_block_list_noop compile mgr
    ((pySortedDescBy Ticker.quoteVolume kept).map Ticker.symbol) bl hbl hnb'
  refine ⟨?_, pySortedDescBy_sorted _ _, pySortedDescBy_perm _ _⟩
  simp only [volume_filter_pairlist, hrange, Bool.false_eq_true, if_neg,
    not_false_iff, ← hkept, hallow, hverify]

/-- Witness for C9 amended at the spec's instance: `number_assets = 2`,
quote volumes `A = 300, B = 100, C = 200`, all active markets, nothing
blocked, default `min_value = 0` — yields `["A", "C"]` in that order. -/
theorem volume_filter_no_lookback_selects_witness :
    (volume_filter_pairlist (fun _ => 1440) (fun _ => some (fun _ => false))
          ⟨2, 0, "1d", 0⟩ ⟨[], ["A", "B", "C"]⟩ [] [] ["A", "B", "C"]
          [("A", ⟨"A", 300⟩), ("B", ⟨"B", 100⟩), ("C", ⟨"C", 200⟩)]).result
        = .ok ["A", "C"] := by
  have h := volume_filter_no_lookback_selects (fun _ => 1440)
    (fun _ => some (fun _ => false)) ⟨2, 0, "1d", 0⟩ ⟨[], ["A", "B", "C"]⟩
    [] [] ["A", "B", "C"]
    [("A", ⟨"A", 300⟩), ("B", ⟨"B", 100⟩), ("C", ⟨"C", 200⟩)] [] rfl
    (by decide) (by decide) (by decide) rfl (by decide)
  rw [h.1]
  rfl

end MCookbook
